import Mathlib

/-!
Shallow embedding of the Brainfuck interpreter (src/src/main.rs).

The engine state is the `Brainfuck` struct of the source, with two extra
fields `input` and `output` modelling the process's stdin byte stream and
the characters emitted on stdout (the source reads/writes the real console;
the `,` and `.` arms are otherwise translated verbatim).

Machine-integer notes, kept faithful to the source:
  - `mem` cells are `u32`; every write is guarded (`+` checks for
    `u32::max_value()` first, `,` stores a byte), so cells are modelled as
    `Nat` with the guard constant 4294967295 appearing exactly where the
    source checks it.
  - `mem_ptr` is `usize`, guarded against 0 and 29999, modelled as `Nat`.
  - `pc`, `lin`, `col` are `u32` counters that stay below the program
    length plus small constants, modelled as `Nat`.
  - `sp` is `i16` and is modelled as `Int`.  The source computes the peek
    indices `sp * 3`, `sp * 3 + 1`, `sp * 3 + 2` in `i16` arithmetic:
    whenever `sp * 3 + 2 > 32767` that computation overflows `i16`, which
    panics in a debug build and in a release build wraps to a negative
    value whose `as usize` cast is astronomically out of bounds, so the
    `Vec` index panics.  `stack_peek` therefore returns `none` (= panic)
    in exactly that situation.
  - `Vec::pop().unwrap()` and `Vec` indexing panic on missing elements;
    every such panic is modelled by an explicit `none` / `panicked`.
-/

/-- Outcome of one dispatched instruction: `ok`, an engine error carrying
the message of the `Err(&str)` of the source, or a Rust panic. -/
inductive Status where
  | ok : Status
  | err : String → Status
  | panicked : Status
deriving DecidableEq

/-- The engine state: the `Brainfuck` struct of the source, plus `input`
and `output` modelling the console streams. -/
structure Brainfuck where
  /-- Memory, 30000 `u32` cells; indices ≥ 30000 are never touched because
  `mem_ptr` is guarded to stay below 30000. -/
  mem : Nat → Nat
  /-- Memory pointer (`usize`). -/
  mem_ptr : Nat
  /-- Program file split into chars. -/
  prog : List Char
  /-- Program counter (`u32`). -/
  pc : Nat
  /-- Stack for loops: flattened (pc, lin, col) triples (`Vec<u32>`). -/
  stack : List Nat
  /-- Stack pointer (`i16`), `-1` when the stack is empty. -/
  sp : Int
  /-- Line number of the current instruction (`u32`). -/
  lin : Nat
  /-- Column number of the current instruction (`u32`). -/
  col : Nat
  /-- Bytes still pending on stdin (model of the console). -/
  input : List Nat
  /-- Characters (as code points) emitted so far on stdout (model). -/
  output : List Nat

/-- The constructor `Brainfuck::new`: zeroed tape, pointer 0, program split
into chars, pc 0, empty stack, sp = -1, line 1, column 1. -/
def Brainfuck.new (prog_str : String) : Brainfuck :=
  { mem := fun _ => 0
    mem_ptr := 0
    prog := prog_str.toList
    pc := 0
    stack := []
    sp := -1
    lin := 1
    col := 1
    input := []
    output := [] }

/-- The source's `stack_push`: refuse when `sp` already equals
`i16::max_value()` (32767); otherwise increment `sp` and append the
current `(pc, lin, col)` triple. -/
def stack_push (s : Brainfuck) : Brainfuck × Status :=
  if s.sp = 32767 then
    (s, .err "Nested loop limit reached.")
  else
    ({ s with sp := s.sp + 1, stack := s.stack ++ [s.pc, s.lin, s.col] }, .ok)

/-- The source's `stack_pop`: `Err` when `sp < 0`; otherwise pop `col`,
`lin`, `pc` from the end of the vector (each `Vec::pop().unwrap()`; an
empty pop is a panic, modelled by `none`) and decrement `sp`. -/
def stack_pop (s : Brainfuck) : Option (Except String ((Nat × Nat × Nat) × Brainfuck)) :=
  if s.sp < 0 then
    some (Except.error "Unpaired ']'.")
  else
    match s.stack.getLast? with
    | none => none
    | some col =>
      match s.stack.dropLast.getLast? with
      | none => none
      | some lin =>
        match s.stack.dropLast.dropLast.getLast? with
        | none => none
        | some p =>
          some (Except.ok ((p, lin, col),
            { s with stack := s.stack.dropLast.dropLast.dropLast, sp := s.sp - 1 }))

/-- The source's `stack_peek`: when `sp ≥ 0`, read the triple at indices
`sp * 3`, `sp * 3 + 1`, `sp * 3 + 2`.  Those indices are computed in `i16`
arithmetic, so when `sp * 3 + 2` exceeds 32767 the computation overflows,
which is a panic (`none`); an out-of-range `Vec` index also panics. -/
def stack_peek (s : Brainfuck) : Option (Except String (Nat × Nat × Nat)) :=
  if 0 ≤ s.sp then
    if 32767 < s.sp * 3 + 2 then
      none
    else
      match s.stack[(s.sp * 3).toNat]?, s.stack[(s.sp * 3 + 1).toNat]?,
            s.stack[(s.sp * 3 + 2).toNat]? with
      | some p, some lin, some col => some (Except.ok (p, lin, col))
      | _, _, _ => none
  else
    some (Except.error "Tried to peek empty stack")

/-- The source's `read_cell`: value of the cell at the memory pointer. -/
def read_cell (s : Brainfuck) : Nat :=
  s.mem s.mem_ptr

/-- The source's `write_to_cell`: store `val` at the memory pointer. -/
def write_to_cell (s : Brainfuck) (val : Nat) : Brainfuck :=
  { s with mem := fun i => if i = s.mem_ptr then val else s.mem i }

/-- Whether a character is one of the eight Brainfuck instruction symbols
(the first match arm of the source's `next_instruction`). -/
def isInstr (c : Char) : Bool :=
  c == '<' || c == '>' || c == '+' || c == '-' ||
  c == '.' || c == ',' || c == '[' || c == ']'

/-- The source's `next_instruction`: skip characters until an instruction
symbol is found (returning it) or the program ends (returning `none`),
advancing `pc` for every character examined, advancing `col` for every
character except a newline, and on a newline advancing `lin` and resetting
`col` to 1. -/
def next_instruction (s : Brainfuck) : Option Char × Brainfuck :=
  if h : s.pc < s.prog.length then
    if isInstr s.prog[s.pc] then
      (some s.prog[s.pc], { s with pc := s.pc + 1, col := s.col + 1 })
    else if s.prog[s.pc] = '\n' then
      next_instruction { s with pc := s.pc + 1, lin := s.lin + 1, col := 1 }
    else
      next_instruction { s with pc := s.pc + 1, col := s.col + 1 }
  else
    (none, s)
termination_by s.prog.length - s.pc
decreasing_by
  all_goals simp_wf
  all_goals omega

/-- The scanning loop of the source's `check_ending_bracket`, with the
local cursor `i` and counter `opening_brackets` made explicit. -/
def check_ending_bracket_loop (prog : List Char) (i opening_brackets : Nat) : Option Nat :=
  if h : i < prog.length then
    if prog[i] = ']' then
      if opening_brackets = 0 then
        some i
      else
        check_ending_bracket_loop prog (i + 1) (opening_brackets - 1)
    else if prog[i] = '[' then
      check_ending_bracket_loop prog (i + 1) (opening_brackets + 1)
    else
      check_ending_bracket_loop prog (i + 1) opening_brackets
  else
    none
termination_by prog.length - i
decreasing_by
  all_goals simp_wf
  all_goals omega

/-- The source's `check_ending_bracket`: scan forward from the current
program counter for the matching `]`.  The Rust function takes `&mut self`
but writes only its locals, so it is a pure function of the state. -/
def check_ending_bracket (s : Brainfuck) : Option Nat :=
  check_ending_bracket_loop s.prog s.pc 0

/-- Validity test of `std::char::from_u32`: a `u32` is a Unicode scalar
value unless it is a surrogate or exceeds 0x10FFFF. -/
def isValidCharNat (n : Nat) : Bool :=
  n < 55296 || (57343 < n && n < 1114112)

/-- One arm of the dispatcher `match` inside the source's `run`, acting on
the state left by `next_instruction` (so `s.pc`, `s.lin`, `s.col` already
point past the consumed instruction). -/
def execIns (s : Brainfuck) (ins : Char) : Brainfuck × Status :=
  match ins with
  | '<' =>
    if s.mem_ptr = 0 then
      (s, .err "Tried to access memory out of range (underflow)")
    else
      ({ s with mem_ptr := s.mem_ptr - 1 }, .ok)
  | '>' =>
    if s.mem_ptr = 29999 then
      (s, .err "Tried to access memory out of range (overflow)")
    else
      ({ s with mem_ptr := s.mem_ptr + 1 }, .ok)
  | '+' =>
    if read_cell s = 4294967295 then
      (s, .err "Exceeded max cell value")
    else
      (write_to_cell s (read_cell s + 1), .ok)
  | '-' =>
    if read_cell s = 0 then
      (s, .err "Cells cannot have negative values")
    else
      (write_to_cell s (read_cell s - 1), .ok)
  | '[' =>
    match check_ending_bracket s with
    | some addr =>
      if read_cell s = 0 then
        ({ s with pc := addr + 1 }, .ok)
      else
        stack_push s
    | none => (s, .err "Loop not closed")
  | ']' =>
    match stack_peek s with
    | some (Except.error _) => (s, .err "Obsolete loop close bracket")
    | some (Except.ok (p, l, c)) =>
      if read_cell s ≠ 0 then
        ({ s with pc := p, lin := l, col := c }, .ok)
      else
        match stack_pop s with
        | some (Except.ok (_, s1)) => (s1, .ok)
        | _ => (s, .panicked)
    | none => (s, .panicked)
  | '.' =>
    if isValidCharNat (read_cell s) then
      ({ s with output := s.output ++ [read_cell s] }, .ok)
    else
      (s, .err "Could not print character")
  | ',' =>
    match s.input.dropWhile (fun b => b == 10) with
    | [] => (s, .panicked)
    | b :: rest => ({ write_to_cell s b with input := rest }, .ok)
  | _ => (s, .err "Unexpected instruction")

/-- Result of the source's `run` loop, driven by an explicit fuel bound on
the number of dispatched instructions (the Rust loop may diverge). -/
inductive RunResult where
  | done : Brainfuck → RunResult
  | error : String → Brainfuck → RunResult
  | panicked : Brainfuck → RunResult
  | fuelOut : Brainfuck → RunResult

/-- The source's `run`: repeatedly pull an instruction from the Scanner
and dispatch it; stop cleanly when the Scanner is exhausted, stop with the
message and the current line/column on the first `Err`. -/
def run (fuel : Nat) (s : Brainfuck) : RunResult :=
  match fuel with
  | 0 => .fuelOut s
  | fuel + 1 =>
    match next_instruction s with
    | (none, s1) => .done s1
    | (some ch, s1) =>
      match execIns s1 ch with
      | (s2, .ok) => run fuel s2
      | (s2, .err msg) => .error msg s2
      | (s2, .panicked) => .panicked s2

/-- Message of a halted-with-error run, if any. -/
def errMsg : RunResult → Option String
  | .error msg _ => some msg
  | _ => none

/-- Message and reported (line, column) of a halted-with-error run: the
source prints the message together with `self.lin` and `self.col`. -/
def runError : RunResult → Option (String × Nat × Nat)
  | .error msg s => some (msg, s.lin, s.col)
  | _ => none

/-! ### Helper definitions for the specifications -/

/-- Line/column bookkeeping of the Scanner for one examined character:
a newline advances the line and resets the column to 1, any other
character advances the column. -/
def scanPos (lc : Nat × Nat) (ch : Char) : Nat × Nat :=
  if ch = '\n' then (lc.1 + 1, 1) else (lc.1, lc.2 + 1)

/-- Net number of loop-open symbols minus loop-close symbols in a list. -/
def netOpen : List Char → Int
  | [] => 0
  | c :: l => (if c = '[' then 1 else 0) - (if c = ']' then 1 else 0) + netOpen l

/-- The half-open slice of the program from offset a (inclusive) to
offset b (exclusive). -/
def progSlice (prog : List Char) (a b : Nat) : List Char :=
  (prog.drop a).take (b - a)

/-- Fresh engine on the empty program, used by concrete witnesses. -/
def demo0 : Brainfuck := Brainfuck.new ""

/-! ### Arm-level equations of the dispatcher (each one holds by
unfolding the match of execIns at a literal instruction character) -/

lemma execIns_lt_eq (s : Brainfuck) :
    execIns s '<' =
      if s.mem_ptr = 0 then
        (s, .err "Tried to access memory out of range (underflow)")
      else
        ({ s with mem_ptr := s.mem_ptr - 1 }, .ok) := rfl

lemma execIns_gt_eq (s : Brainfuck) :
    execIns s '>' =
      if s.mem_ptr = 29999 then
        (s, .err "Tried to access memory out of range (overflow)")
      else
        ({ s with mem_ptr := s.mem_ptr + 1 }, .ok) := rfl

lemma execIns_plus_eq (s : Brainfuck) :
    execIns s '+' =
      if read_cell s = 4294967295 then
        (s, .err "Exceeded max cell value")
      else
        (write_to_cell s (read_cell s + 1), .ok) := rfl

lemma execIns_minus_eq (s : Brainfuck) :
    execIns s '-' =
      if read_cell s = 0 then
        (s, .err "Cells cannot have negative values")
      else
        (write_to_cell s (read_cell s - 1), .ok) := rfl

lemma execIns_open_eq (s : Brainfuck) :
    execIns s '[' =
      (match check_ending_bracket s with
       | some addr =>
         if read_cell s = 0 then ({ s with pc := addr + 1 }, .ok) else stack_push s
       | none => (s, .err "Loop not closed")) := rfl

lemma execIns_close_eq (s : Brainfuck) :
    execIns s ']' =
      (match stack_peek s with
       | some (Except.error _) => (s, .err "Obsolete loop close bracket")
       | some (Except.ok (p, l, c)) =>
         if read_cell s ≠ 0 then
           ({ s with pc := p, lin := l, col := c }, .ok)
         else
           match stack_pop s with
           | some (Except.ok (_, s1)) => (s1, .ok)
           | _ => (s, .panicked)
       | none => (s, .panicked)) := rfl

lemma execIns_dot_eq (s : Brainfuck) :
    execIns s '.' =
      if isValidCharNat (read_cell s) then
        ({ s with output := s.output ++ [read_cell s] }, .ok)
      else
        (s, .err "Could not print character") := rfl

lemma execIns_comma_eq (s : Brainfuck) :
    execIns s ',' =
      (match s.input.dropWhile (fun b => b == 10) with
       | [] => (s, .panicked)
       | b :: rest => ({ write_to_cell s b with input := rest }, .ok)) := rfl

lemma read_cell_write (s : Brainfuck) (v : Nat) : read_cell (write_to_cell s v) = v := by
  simp [read_cell, write_to_cell]

/-! ### Facts about the stack operations -/

lemma stack_peek_ok_facts (s : Brainfuck) (p l c : Nat)
    (h : stack_peek s = some (Except.ok (p, l, c))) :
    0 ≤ s.sp ∧ s.sp * 3 + 2 ≤ 32767 ∧
    s.stack[(s.sp * 3).toNat]? = some p ∧
    s.stack[(s.sp * 3 + 1).toNat]? = some l ∧
    s.stack[(s.sp * 3 + 2).toNat]? = some c := by
  unfold stack_peek at h
  by_cases h0 : 0 ≤ s.sp
  · rw [if_pos h0] at h
    by_cases h1 : 32767 < s.sp * 3 + 2
    · rw [if_pos h1] at h
      exact Option.noConfusion h
    · rw [if_neg h1] at h
      refine ⟨h0, by omega, ?_, ?_, ?_⟩ <;>
        rcases hp : s.stack[(s.sp * 3).toNat]? with _ | p' <;>
          rcases hl : s.stack[(s.sp * 3 + 1).toNat]? with _ | l' <;>
            rcases hc : s.stack[(s.sp * 3 + 2).toNat]? with _ | c' <;>
              rw [hp, hl, hc] at h <;> simp_all
  · rw [if_neg h0] at h
    simp at h

lemma getLast?_some_of_ne_nil {α : Type} (l : List α) (h : l ≠ []) :
    ∃ a, l.getLast? = some a := by
  cases l with
  | nil => exact absurd rfl h
  | cons a t => exact ⟨(a :: t).getLast (by simp), List.getLast?_eq_getLast _ (by simp)⟩

lemma stack_pop_of_three_le (s : Brainfuck) (h0 : 0 ≤ s.sp) (h3 : 3 ≤ s.stack.length) :
    ∃ p l c, stack_pop s = some (Except.ok ((p, l, c),
      { s with stack := s.stack.dropLast.dropLast.dropLast, sp := s.sp - 1 })) := by
  obtain ⟨cv, hcv⟩ := getLast?_some_of_ne_nil s.stack
    (by intro e; rw [e] at h3; simp at h3)
  obtain ⟨lv, hlv⟩ := getLast?_some_of_ne_nil s.stack.dropLast
    (by intro e; have := congrArg List.length e; simp [List.length_dropLast] at this; omega)
  obtain ⟨pv, hpv⟩ := getLast?_some_of_ne_nil s.stack.dropLast.dropLast
    (by intro e; have := congrArg List.length e; simp [List.length_dropLast] at this; omega)
  refine ⟨pv, lv, cv, ?_⟩
  unfold stack_pop
  rw [if_neg (by omega)]
  simp only [hcv, hlv, hpv]

/-- CLAIM C2 amended claim: the push operation records the current
(offset, line, column) as a new frame, and fails with the capacity error
exactly when the stack pointer already equals the maximum signed 16-bit
value 32767, i.e. when the stack already holds 32768 frames; the stack
pointer (hence the depth) never grows past that point. -/
theorem stack_push_spec (s : Brainfuck) :
    ((stack_push s).2 = .err "Nested loop limit reached." ↔ s.sp = 32767) ∧
    (s.sp = 32767 → stack_push s = (s, .err "Nested loop limit reached.")) ∧
    (s.sp ≠ 32767 →
      stack_push s =
        ({ s with sp := s.sp + 1, stack := s.stack ++ [s.pc, s.lin, s.col] }, .ok)) ∧
    (s.sp ≤ 32767 → (stack_push s).1.sp ≤ 32767) := by
  unfold stack_push
  split_ifs with h
  · refine ⟨by simp [h], fun _ => rfl, fun hne => absurd h hne, fun _ => by simp; omega⟩
  · refine ⟨by simp [h], fun he => absurd he h, fun _ => rfl, fun hle => by simp; omega⟩

/-- Engine state at call-frame depth 32767 (stack pointer 32766), the
depth the original claim says is the maximum. -/
def deepPush : Brainfuck :=
  { Brainfuck.new "" with sp := 32766, stack := List.replicate 98301 0 }

/-- CLAIM C2 counterexample: at depth 32767 frames (stack pointer 32766)
the push succeeds, producing a 32768-frame stack, so the capacity error
does not fire at depth 32767 and the depth does exceed 32767. -/
theorem stack_push_succeeds_at_depth_32767 :
    deepPush.stack.length = 3 * 32767 ∧
    (stack_push deepPush).2 = .ok ∧
    (stack_push deepPush).1.stack.length = 3 * 32768 := by
  have hne : deepPush.sp ≠ 32767 := by decide
  have h := (stack_push_spec deepPush).2.2.1 hne
  have est : deepPush.stack = List.replicate 98301 0 := rfl
  refine ⟨?_, ?_, ?_⟩
  · rw [est, List.length_replicate]
  · rw [h]
  · rw [h]
    show (deepPush.stack ++ [deepPush.pc, deepPush.lin, deepPush.col]).length = 3 * 32768
    rw [est, List.length_append, List.length_replicate]
    rfl

/-- CLAIM C2 witness: the push fails at stack pointer 32767 and succeeds
on a fresh engine, appending the (0, 1, 1) start triple. -/
theorem stack_push_spec_witness :
    stack_push { demo0 with sp := 32767 } =
      ({ demo0 with sp := 32767 }, .err "Nested loop limit reached.") ∧
    stack_push demo0 = ({ demo0 with sp := 0, stack := [0, 1, 1] }, .ok) := by
  constructor
  · exact (stack_push_spec { demo0 with sp := 32767 }).2.1 rfl
  · have h := (stack_push_spec demo0).2.2.1 (by decide)
    simpa [demo0, Brainfuck.new] using h

/-- CLAIM C5: for every engine state, the pointer-left instruction at
index 0 yields the underflow error leaving the state unchanged, the
pointer-right instruction at index 29999 yields the overflow error
leaving the state unchanged, and otherwise each moves the pointer by
exactly one with no wraparound. -/
theorem pointer_move_bounds (s : Brainfuck) :
    (s.mem_ptr = 0 →
      execIns s '<' = (s, .err "Tried to access memory out of range (underflow)")) ∧
    (s.mem_ptr ≠ 0 →
      execIns s '<' = ({ s with mem_ptr := s.mem_ptr - 1 }, .ok)) ∧
    (s.mem_ptr = 29999 →
      execIns s '>' = (s, .err "Tried to access memory out of range (overflow)")) ∧
    (s.mem_ptr ≠ 29999 →
      execIns s '>' = ({ s with mem_ptr := s.mem_ptr + 1 }, .ok)) := by
  refine ⟨fun h => ?_, fun h => ?_, fun h => ?_, fun h => ?_⟩
  · rw [execIns_lt_eq, if_pos h]
  · rw [execIns_lt_eq, if_neg h]
  · rw [execIns_gt_eq, if_pos h]
  · rw [execIns_gt_eq, if_neg h]

/-- CLAIM C5 witness: on a fresh engine the pointer-left instruction
underflows with the pointer still 0, and from index 5 the pointer-right
instruction moves the pointer to 6. -/
theorem pointer_move_bounds_witness :
    execIns demo0 '<' = (demo0, .err "Tried to access memory out of range (underflow)") ∧
    execIns { demo0 with mem_ptr := 5 } '>' = ({ demo0 with mem_ptr := 6 }, .ok) := by
  constructor
  · exact (pointer_move_bounds demo0).1 rfl
  · exact (pointer_move_bounds { demo0 with mem_ptr := 5 }).2.2.2 (by decide)

/-- CLAIM C6: for every engine state, incrementing a cell holding the
maximum unsigned 32-bit value 4294967295 yields the overflow error with
the cell unchanged, decrementing a cell holding 0 yields the
negative-value error with the cell unchanged, and otherwise each changes
the cell by exactly one. -/
theorem cell_step_bounds (s : Brainfuck) :
    (read_cell s = 4294967295 →
      execIns s '+' = (s, .err "Exceeded max cell value")) ∧
    (read_cell s ≠ 4294967295 →
      execIns s '+' = (write_to_cell s (read_cell s + 1), .ok) ∧
      read_cell (execIns s '+').1 = read_cell s + 1) ∧
    (read_cell s = 0 →
      execIns s '-' = (s, .err "Cells cannot have negative values")) ∧
    (read_cell s ≠ 0 →
      execIns s '-' = (write_to_cell s (read_cell s - 1), .ok) ∧
      read_cell (execIns s '-').1 = read_cell s - 1) := by
  refine ⟨fun h => ?_, fun h => ⟨?_, ?_⟩, fun h => ?_, fun h => ⟨?_, ?_⟩⟩
  · rw [execIns_plus_eq, if_pos h]
  · rw [execIns_plus_eq, if_neg h]
  · rw [execIns_plus_eq, if_neg h]
    exact read_cell_write s (read_cell s + 1)
  · rw [execIns_minus_eq, if_pos h]
  · rw [execIns_minus_eq, if_neg h]
  · rw [execIns_minus_eq, if_neg h]
    exact read_cell_write s (read_cell s - 1)

/-- Engine state whose current cell holds the maximum unsigned value. -/
def demoMax : Brainfuck := { demo0 with mem := fun _ => 4294967295 }

/-- CLAIM C6 witness: incrementing at the maximum cell value errors, and
decrementing a cell holding 1 brings it to 0. -/
theorem cell_step_bounds_witness :
    execIns demoMax '+' = (demoMax, .err "Exceeded max cell value") ∧
    read_cell (execIns { demo0 with mem := fun _ => 1 } '-').1 = 0 := by
  constructor
  · exact (cell_step_bounds demoMax).1 rfl
  · exact ((cell_step_bounds { demo0 with mem := fun _ => 1 }).2.2.2 (by decide)).2

/-- CLAIM C7: executing a loop-close with an empty call-frame stack
(negative stack pointer) yields the unpaired-close error regardless of the
cell value, and the one-instruction program consisting of a single
loop-close halts with that error reported at line 1 and column 2 (the
position after the instruction was consumed by the Scanner). -/
theorem unpaired_close_error :
    (∀ s : Brainfuck, s.sp < 0 →
      execIns s ']' = (s, .err "Obsolete loop close bracket")) ∧
    runError (run 1 (Brainfuck.new "]")) = some ("Obsolete loop close bracket", 1, 2) := by
  constructor
  · intro s h
    rw [execIns_close_eq]
    unfold stack_peek
    rw [if_neg (by omega)]
  · simp [run, next_instruction, Brainfuck.new, isInstr, execIns, stack_peek, runError]

/-- CLAIM C7 witness: with an empty stack and the current cell holding the
non-zero value 7 the loop-close still errors. -/
theorem unpaired_close_error_witness :
    execIns { demo0 with mem := fun _ => 7 } ']' =
      ({ demo0 with mem := fun _ => 7 }, .err "Obsolete loop close bracket") :=
  unpaired_close_error.1 { demo0 with mem := fun _ => 7 } (by decide)

/-- Engine state at call-frame depth 10923 (stack pointer 10922) with the
stack holding its 3-per-frame representation; this state is reached by
running a program of 10923 properly nested loops on a non-zero cell. -/
def deepPeek : Brainfuck :=
  { Brainfuck.new "" with sp := 10922, stack := List.replicate 32769 0 }

/-- Iterated push: the state after n consecutive successful calls of the
stack push operation. -/
def pushN : Nat → Brainfuck → Brainfuck
  | 0, s => s
  | n + 1, s => (stack_push (pushN n s)).1

lemma pushN_fresh (n : Nat) (hn : n ≤ 32768) :
    (pushN n (Brainfuck.new "")).sp = (n : Int) - 1 ∧
    (pushN n (Brainfuck.new "")).stack.length = 3 * n := by
  induction n with
  | zero => exact ⟨rfl, rfl⟩
  | succ k ih =>
    obtain ⟨h1, h2⟩ := ih (by omega)
    have hne : (pushN k (Brainfuck.new "")).sp ≠ 32767 := by
      rw [h1]
      omega
    constructor
    · show (stack_push (pushN k (Brainfuck.new ""))).1.sp = _
      unfold stack_push
      rw [if_neg hne]
      show (pushN k (Brainfuck.new "")).sp + 1 = _
      rw [h1]
      push_cast
      ring
    · show (stack_push (pushN k (Brainfuck.new ""))).1.stack.length = _
      unfold stack_push
      rw [if_neg hne]
      show ((pushN k (Brainfuck.new "")).stack ++ _).length = _
      rw [List.length_append, h2]
      rfl

/-- CLAIM C9 (refuting evaluation): at the reachable depth 10923 the peek
index computation sp * 3 + 2 = 32768 overflows the signed 16-bit stack
pointer type, so peek panics instead of returning the top frame, and the
dispatcher's loop-close panics on that state; the representation invariant
length = 3 * (sp + 1) holds at this state and sp is below the push guard
32767, so the depth is reachable - indeed 10923 iterated pushes on a fresh
engine produce a panicking peek. -/
theorem stack_peek_depth_panic :
    0 ≤ deepPeek.sp ∧ deepPeek.sp < 32767 ∧
    deepPeek.stack.length = 3 * (deepPeek.sp.toNat + 1) ∧
    stack_peek deepPeek = none ∧
    execIns deepPeek ']' = (deepPeek, .panicked) ∧
    (pushN 10923 (Brainfuck.new "")).sp = 10922 ∧
    stack_peek (pushN 10923 (Brainfuck.new "")) = none := by
  have hpk : stack_peek deepPeek = none := by
    unfold stack_peek
    rw [if_pos (by decide), if_pos (by decide)]
  obtain ⟨hp1, _⟩ := pushN_fresh 10923 (by omega)
  have hp1' : (pushN 10923 (Brainfuck.new "")).sp = 10922 := by
    rw [hp1]
    norm_num
  refine ⟨by decide, by decide, ?_, hpk, ?_, hp1', ?_⟩
  · have est : deepPeek.stack = List.replicate 32769 0 := rfl
    rw [est, List.length_replicate]
    rfl
  · rw [execIns_close_eq, hpk]
  · unfold stack_peek
    rw [hp1']
    norm_num

/-- CLAIM C10: when a loop-open executes on a zero cell and the Loop
Locator finds the match at addr, the program counter becomes addr + 1 and
nothing else changes: line, column, tape, memory pointer, stack and stack
pointer are all preserved (so newlines inside the skipped body are not
accounted for in the line/column counters). -/
theorem zero_skip_only_pc (s : Brainfuck) (addr : Nat)
    (ha : check_ending_bracket s = some addr) (hc : read_cell s = 0) :
    (execIns s '[').2 = .ok ∧
    (execIns s '[').1.pc = addr + 1 ∧
    (execIns s '[').1.lin = s.lin ∧
    (execIns s '[').1.col = s.col ∧
    (execIns s '[').1.mem = s.mem ∧
    (execIns s '[').1.mem_ptr = s.mem_ptr ∧
    (execIns s '[').1.stack = s.stack ∧
    (execIns s '[').1.sp = s.sp := by
  rw [execIns_open_eq, ha]
  simp [hc]

/-- Engine state just after the Scanner consumed the loop-open of the
program whose loop body is a single newline. -/
def demoNl : Brainfuck := { Brainfuck.new "[\n]" with pc := 1, col := 2 }

/-- CLAIM C10 witness: skipping the zero-cell loop whose body is a newline
jumps the program counter past the close while leaving the line counter at
1, not accounting for the skipped newline. -/
theorem zero_skip_only_pc_witness :
    (execIns demoNl '[').2 = .ok ∧
    (execIns demoNl '[').1.pc = 3 ∧
    (execIns demoNl '[').1.lin = 1 := by
  have h := zero_skip_only_pc demoNl 2
    (by simp [check_ending_bracket, demoNl, Brainfuck.new, check_ending_bracket_loop]) rfl
  exact ⟨h.1, h.2.1, h.2.2.1.trans rfl⟩

/-- CLAIM C1: loop semantics of the dispatcher, acting on the state left
by the Scanner (so pc, lin, col already designate the position after the
consumed bracket, i.e. the first body instruction).  A loop-open on a zero
cell jumps the program counter to one past the matching close without
pushing a frame; a loop-open on a non-zero cell (below the stack capacity
guard) pushes a frame holding the current (pc, lin, col); a loop-close on
a non-zero cell restores pc, lin and col from the top frame without
popping it; a loop-close on a zero cell pops the top frame (three stack
slots) and continues past the close. -/
theorem loop_dispatch_semantics (s : Brainfuck) :
    (∀ addr, check_ending_bracket s = some addr → read_cell s = 0 →
      execIns s '[' = ({ s with pc := addr + 1 }, .ok)) ∧
    (∀ addr, check_ending_bracket s = some addr → read_cell s ≠ 0 → s.sp ≠ 32767 →
      execIns s '[' =
        ({ s with sp := s.sp + 1, stack := s.stack ++ [s.pc, s.lin, s.col] }, .ok)) ∧
    (∀ p l c, stack_peek s = some (Except.ok (p, l, c)) → read_cell s ≠ 0 →
      execIns s ']' = ({ s with pc := p, lin := l, col := c }, .ok)) ∧
    (∀ p l c, stack_peek s = some (Except.ok (p, l, c)) → read_cell s = 0 →
      execIns s ']' =
        ({ s with stack := s.stack.dropLast.dropLast.dropLast, sp := s.sp - 1 }, .ok)) := by
  refine ⟨?_, ?_, ?_, ?_⟩
  · intro addr ha hc
    rw [execIns_open_eq, ha]
    simp only [if_pos hc]
  · intro addr ha hc hsp
    rw [execIns_open_eq, ha]
    simp only [if_neg hc]
    unfold stack_push
    rw [if_neg hsp]
  · intro p l c hp hc
    rw [execIns_close_eq, hp]
    simp only [if_pos hc]
  · intro p l c hp hc
    rw [execIns_close_eq, hp]
    have hf := stack_peek_ok_facts s p l c hp
    have hlen : 3 ≤ s.stack.length := by
      have h2 := hf.2.2.2.2
      have hlt : (s.sp * 3 + 2).toNat < s.stack.length := by
        rcases List.getElem?_eq_some.mp h2 with ⟨hl, _⟩
        exact hl
      omega
    obtain ⟨p', l', c', hpop⟩ := stack_pop_of_three_le s hf.1 hlen
    simp only [if_neg (by simp [hc] : ¬ read_cell s ≠ 0), hpop]

/-- State after the Scanner consumed the loop-open of a zero-cell loop. -/
def demoSkip : Brainfuck := { Brainfuck.new "[]" with pc := 1, col := 2 }

/-- State after the Scanner consumed the loop-open of a non-zero-cell
loop. -/
def demoPush : Brainfuck := { Brainfuck.new "[]" with pc := 1, col := 2, mem := fun _ => 1 }

/-- State executing a loop-close with frame (7, 8, 9) on a non-zero
cell. -/
def demoBack : Brainfuck :=
  { Brainfuck.new "" with stack := [7, 8, 9], sp := 0, mem := fun _ => 1 }

/-- State executing a loop-close with frame (7, 8, 9) on a zero cell. -/
def demoPop : Brainfuck := { Brainfuck.new "" with stack := [7, 8, 9], sp := 0 }

/-- CLAIM C1 witness: the four loop behaviors at concrete states: skip to
one past the close, push the frame (1, 1, 2), restore (7, 8, 9) without
popping, and pop the frame on exit. -/
theorem loop_dispatch_semantics_witness :
    execIns demoSkip '[' = ({ demoSkip with pc := 2 }, .ok) ∧
    execIns demoPush '[' = ({ demoPush with sp := 0, stack := [1, 1, 2] }, .ok) ∧
    execIns demoBack ']' = ({ demoBack with pc := 7, lin := 8, col := 9 }, .ok) ∧
    execIns demoPop ']' = ({ demoPop with stack := [], sp := -1 }, .ok) := by
  refine ⟨?_, ?_, ?_, ?_⟩
  · exact (loop_dispatch_semantics demoSkip).1 1
      (by simp [check_ending_bracket, demoSkip, Brainfuck.new, check_ending_bracket_loop]) rfl
  · exact (loop_dispatch_semantics demoPush).2.1 1
      (by simp [check_ending_bracket, demoPush, Brainfuck.new, check_ending_bracket_loop])
      (by decide) (by decide)
  · exact (loop_dispatch_semantics demoBack).2.2.1 7 8 9 rfl (by decide)
  · exact (loop_dispatch_semantics demoPop).2.2.2 7 8 9 rfl rfl

/-! ### Bracket matching: the Loop Locator -/

lemma progSlice_self (prog : List Char) (a : Nat) : progSlice prog a a = [] := by
  simp [progSlice]

lemma progSlice_cons (prog : List Char) (a b : Nat) (h : a < prog.length) (hab : a < b) :
    progSlice prog a b = prog[a] :: progSlice prog (a + 1) b := by
  unfold progSlice
  rw [List.drop_eq_getElem_cons h]
  have hba : b - a = (b - (a + 1)) + 1 := by omega
  rw [hba, List.take_succ_cons]

lemma netOpen_cons (c : Char) (l : List Char) :
    netOpen (c :: l) =
      (if c = '[' then 1 else 0) - (if c = ']' then 1 else 0) + netOpen l := rfl

lemma netOpen_cons_close (l : List Char) : netOpen (']' :: l) = 0 - 1 + netOpen l := rfl

lemma netOpen_cons_open (l : List Char) : netOpen ('[' :: l) = 1 - 0 + netOpen l := rfl

lemma netOpen_cons_other (c : Char) (l : List Char) (h1 : c ≠ '[') (h2 : c ≠ ']') :
    netOpen (c :: l) = netOpen l := by
  rw [netOpen_cons, if_neg h1, if_neg h2]
  omega

lemma ceb_loop_some_spec :
    ∀ n prog i b j, prog.length - i ≤ n →
      check_ending_bracket_loop prog i b = some j →
      i ≤ j ∧ j < prog.length ∧ prog[j]? = some ']' ∧
      netOpen (progSlice prog i j) = -(b : Int) ∧
      ∀ k, i ≤ k → k < j → prog[k]? = some ']' →
        netOpen (progSlice prog i k) ≠ -(b : Int) := by
  intro n
  induction n with
  | zero =>
    intro prog i b j hn h
    rw [check_ending_bracket_loop, dif_neg (by omega)] at h
    exact Option.noConfusion h
  | succ n ih =>
    intro prog i b j hn h
    by_cases hi : i < prog.length
    · rw [check_ending_bracket_loop, dif_pos hi] at h
      by_cases hcl : prog[i] = ']'
      · rw [if_pos hcl] at h
        by_cases hb : b = 0
        · rw [if_pos hb] at h
          obtain rfl : i = j := Option.some.inj h
          subst hb
          refine ⟨le_rfl, hi, ?_, by rw [progSlice_self]; rfl,
            fun k hk1 hk2 _ => by omega⟩
          rw [List.getElem?_eq_getElem hi, hcl]
        · rw [if_neg hb] at h
          obtain ⟨h1, h2, h3, h4, h5⟩ := ih prog (i + 1) (b - 1) j (by omega) h
          have hij : i < j := by omega
          refine ⟨by omega, h2, h3, ?_, ?_⟩
          · rw [progSlice_cons prog i j hi hij, hcl, netOpen_cons_close, h4]
            omega
          · intro k hk1 hk2 hk3
            rcases Nat.eq_or_lt_of_le hk1 with rfl | hk1'
            · rw [progSlice_self]
              have e0 : netOpen [] = 0 := rfl
              omega
            · rw [progSlice_cons prog i k hi hk1', hcl, netOpen_cons_close]
              have h5k := h5 k (by omega) hk2 hk3
              omega
      · rw [if_neg hcl] at h
        by_cases hop : prog[i] = '['
        · rw [if_pos hop] at h
          obtain ⟨h1, h2, h3, h4, h5⟩ := ih prog (i + 1) (b + 1) j (by omega) h
          have hij : i < j := by omega
          refine ⟨by omega, h2, h3, ?_, ?_⟩
          · rw [progSlice_cons prog i j hi hij, hop, netOpen_cons_open, h4]
            push_cast
            omega
          · intro k hk1 hk2 hk3
            rcases Nat.eq_or_lt_of_le hk1 with rfl | hk1'
            · exfalso
              rcases List.getElem?_eq_some.mp hk3 with ⟨_, he⟩
              exact hcl he
            · rw [progSlice_cons prog i k hi hk1', hop, netOpen_cons_open]
              have h5k := h5 k (by omega) hk2 hk3
              push_cast at h5k ⊢
              omega
        · rw [if_neg hop] at h
          obtain ⟨h1, h2, h3, h4, h5⟩ := ih prog (i + 1) b j (by omega) h
          have hij : i < j := by omega
          refine ⟨by omega, h2, h3, ?_, ?_⟩
          · rw [progSlice_cons prog i j hi hij, netOpen_cons_other _ _ hop hcl, h4]
          · intro k hk1 hk2 hk3
            rcases Nat.eq_or_lt_of_le hk1 with rfl | hk1'
            · exfalso
              rcases List.getElem?_eq_some.mp hk3 with ⟨_, he⟩
              exact hcl he
            · rw [progSlice_cons prog i k hi hk1', netOpen_cons_other _ _ hop hcl]
              exact h5 k (by omega) hk2 hk3
    · rw [check_ending_bracket_loop, dif_neg hi] at h
      exact Option.noConfusion h

lemma ceb_loop_none_spec :
    ∀ n prog i b, prog.length - i ≤ n →
      check_ending_bracket_loop prog i b = none →
      ∀ j, i ≤ j → prog[j]? = some ']' →
        netOpen (progSlice prog i j) ≠ -(b : Int) := by
  intro n
  induction n with
  | zero =>
    intro prog i b hn _ j hj1 hj2
    rcases List.getElem?_eq_some.mp hj2 with ⟨hl, _⟩
    omega
  | succ n ih =>
    intro prog i b hn h j hj1 hj2
    by_cases hi : i < prog.length
    · rw [check_ending_bracket_loop, dif_pos hi] at h
      by_cases hcl : prog[i] = ']'
      · rw [if_pos hcl] at h
        by_cases hb : b = 0
        · rw [if_pos hb] at h
          exact Option.noConfusion h
        · rw [if_neg hb] at h
          rcases Nat.eq_or_lt_of_le hj1 with rfl | hj1'
          · rw [progSlice_self]
            have e0 : netOpen [] = 0 := rfl
            omega
          · rw [progSlice_cons prog i j hi hj1', hcl, netOpen_cons_close]
            have hk := ih prog (i + 1) (b - 1) (by omega) h j (by omega) hj2
            omega
      · rw [if_neg hcl] at h
        by_cases hop : prog[i] = '['
        · rw [if_pos hop] at h
          rcases Nat.eq_or_lt_of_le hj1 with rfl | hj1'
          · exfalso
            rcases List.getElem?_eq_some.mp hj2 with ⟨_, he⟩
            exact hcl he
          · rw [progSlice_cons prog i j hi hj1', hop, netOpen_cons_open]
            have hk := ih prog (i + 1) (b + 1) (by omega) h j (by omega) hj2
            push_cast at hk ⊢
            omega
        · rw [if_neg hop] at h
          rcases Nat.eq_or_lt_of_le hj1 with rfl | hj1'
          · exfalso
            rcases List.getElem?_eq_some.mp hj2 with ⟨_, he⟩
            exact hcl he
          · rw [progSlice_cons prog i j hi hj1', netOpen_cons_other _ _ hop hcl]
            exact ih prog (i + 1) b (by omega) h j (by omega) hj2
    · rcases List.getElem?_eq_some.mp hj2 with ⟨hl, _⟩
      omega

/-- CLAIM C4: the Loop Locator scans forward from the current offset (the
position just after the Scanner consumed the loop-open) counting nested
loop-open symbols: a returned offset j is the first loop-close at or after
the current offset at which the nesting count returns to zero (the slice
scanned before j has net bracket count zero and every earlier close sits
at non-zero net count); a not-found result means no such close exists, and
the dispatcher then reports the unterminated-loop error leaving the state
unchanged.  The locator itself is a pure function of the state: it mutates
neither the Position Cursor nor the Tape nor the Call Frame Stack. -/
theorem check_ending_bracket_spec (s : Brainfuck) :
    (∀ j, check_ending_bracket s = some j →
      s.pc ≤ j ∧ j < s.prog.length ∧ s.prog[j]? = some ']' ∧
      netOpen (progSlice s.prog s.pc j) = 0 ∧
      ∀ k, s.pc ≤ k → k < j → s.prog[k]? = some ']' →
        netOpen (progSlice s.prog s.pc k) ≠ 0) ∧
    (check_ending_bracket s = none →
      ∀ j, s.pc ≤ j → s.prog[j]? = some ']' →
        netOpen (progSlice s.prog s.pc j) ≠ 0) ∧
    (check_ending_bracket s = none →
      execIns s '[' = (s, .err "Loop not closed")) := by
  refine ⟨?_, ?_, ?_⟩
  · intro j h
    have hs := ceb_loop_some_spec (s.prog.length - s.pc) s.prog s.pc 0 j le_rfl h
    simpa using hs
  · intro h
    have hs := ceb_loop_none_spec (s.prog.length - s.pc) s.prog s.pc 0 le_rfl h
    simpa using hs
  · intro h
    rw [execIns_open_eq, h]

/-- State scanning for the match of the outer loop-open of a nested pair
of loops, the Scanner having just consumed that loop-open. -/
def demoNest : Brainfuck := { Brainfuck.new "[[]]" with pc := 1, col := 2 }

/-- State whose loop-open has no matching close. -/
def demoNoMatch : Brainfuck := { Brainfuck.new "[" with pc := 1, col := 2 }

/-- CLAIM C4 witness: on the nested program the locator returns offset 3
(skipping the inner close at offset 2, which sits at non-zero nesting),
the scanned slice balances, and with no close at all the dispatcher
reports the unterminated-loop error with the state unchanged. -/
theorem check_ending_bracket_spec_witness :
    check_ending_bracket demoNest = some 3 ∧
    netOpen (progSlice demoNest.prog 1 3) = 0 ∧
    (3 : Nat) < demoNest.prog.length ∧
    execIns demoNoMatch '[' = (demoNoMatch, .err "Loop not closed") := by
  have hsome : check_ending_bracket demoNest = some 3 := by
    simp [check_ending_bracket, demoNest, Brainfuck.new, check_ending_bracket_loop]
  have h := (check_ending_bracket_spec demoNest).1 3 hsome
  refine ⟨hsome, ?_, h.2.1, ?_⟩
  · have := h.2.2.2.1
    simpa [demoNest, Brainfuck.new] using this
  · exact (check_ending_bracket_spec demoNoMatch).2.2
      (by simp [check_ending_bracket, demoNoMatch, Brainfuck.new, check_ending_bracket_loop])

/-! ### The Scanner -/

lemma isInstr_ne_newline (c : Char) (h : isInstr c = true) : c ≠ '\n' := by
  intro hc
  subst hc
  exact absurd h (by decide)

lemma mem_dropLast_cons {α : Type} {x a : α} {l : List α} (h : x ∈ (a :: l).dropLast) :
    x = a ∨ x ∈ l.dropLast := by
  cases l with
  | nil => simp at h
  | cons b t =>
    rw [List.dropLast_cons₂] at h
    rcases List.mem_cons.mp h with h1 | h1
    · exact Or.inl h1
    · exact Or.inr h1

lemma getLast?_cons_of_some {α : Type} {a x : α} {l : List α} (h : l.getLast? = some x) :
    (a :: l).getLast? = some x := by
  cases l with
  | nil => exact Option.noConfusion h
  | cons b t =>
    rw [List.getLast?_cons_cons]
    exact h

lemma scanner_spec_terminal (s : Brainfuck) (hpc : ¬ s.pc < s.prog.length) :
    ((next_instruction s).2.prog = s.prog ∧
     (next_instruction s).2.mem = s.mem ∧
     (next_instruction s).2.mem_ptr = s.mem_ptr ∧
     (next_instruction s).2.stack = s.stack ∧
     (next_instruction s).2.sp = s.sp ∧
     (next_instruction s).2.input = s.input ∧
     (next_instruction s).2.output = s.output) ∧
    s.pc ≤ (next_instruction s).2.pc ∧
    ((next_instruction s).2.lin, (next_instruction s).2.col) =
      (progSlice s.prog s.pc (next_instruction s).2.pc).foldl scanPos (s.lin, s.col) ∧
    (∀ c ∈ (progSlice s.prog s.pc (next_instruction s).2.pc).dropLast, isInstr c = false) ∧
    (∀ ch, (next_instruction s).1 = some ch →
      isInstr ch = true ∧
      (progSlice s.prog s.pc (next_instruction s).2.pc).getLast? = some ch ∧
      (next_instruction s).2.pc ≤ s.prog.length) ∧
    ((next_instruction s).1 = none →
      (∀ c ∈ progSlice s.prog s.pc (next_instruction s).2.pc, isInstr c = false) ∧
      s.prog.length ≤ (next_instruction s).2.pc ∧
      (s.pc ≤ s.prog.length → (next_instruction s).2.pc = s.prog.length)) := by
  have heq : next_instruction s = (none, s) := by
    rw [next_instruction, dif_neg hpc]
  rw [heq]
  refine ⟨⟨rfl, rfl, rfl, rfl, rfl, rfl, rfl⟩, le_rfl, ?_, ?_, ?_, ?_⟩
  · rw [progSlice_self]
    rfl
  · rw [progSlice_self]
    intro c hc
    simp at hc
  · intro ch hch
    exact Option.noConfusion hch
  · intro _
    refine ⟨?_, (by omega : s.prog.length ≤ s.pc), fun _ => (by omega : s.pc = s.prog.length)⟩
    rw [progSlice_self]
    intro c hc
    simp at hc

lemma scanner_spec_aux :
    ∀ n s, s.prog.length - s.pc ≤ n →
      ((next_instruction s).2.prog = s.prog ∧
       (next_instruction s).2.mem = s.mem ∧
       (next_instruction s).2.mem_ptr = s.mem_ptr ∧
       (next_instruction s).2.stack = s.stack ∧
       (next_instruction s).2.sp = s.sp ∧
       (next_instruction s).2.input = s.input ∧
       (next_instruction s).2.output = s.output) ∧
      s.pc ≤ (next_instruction s).2.pc ∧
      ((next_instruction s).2.lin, (next_instruction s).2.col) =
        (progSlice s.prog s.pc (next_instruction s).2.pc).foldl scanPos (s.lin, s.col) ∧
      (∀ c ∈ (progSlice s.prog s.pc (next_instruction s).2.pc).dropLast, isInstr c = false) ∧
      (∀ ch, (next_instruction s).1 = some ch →
        isInstr ch = true ∧
        (progSlice s.prog s.pc (next_instruction s).2.pc).getLast? = some ch ∧
        (next_instruction s).2.pc ≤ s.prog.length) ∧
      ((next_instruction s).1 = none →
        (∀ c ∈ progSlice s.prog s.pc (next_instruction s).2.pc, isInstr c = false) ∧
        s.prog.length ≤ (next_instruction s).2.pc ∧
        (s.pc ≤ s.prog.length → (next_instruction s).2.pc = s.prog.length)) := by
  intro n
  induction n with
  | zero =>
    intro s hn
    exact scanner_spec_terminal s (by omega)
  | succ n ih =>
    intro s hn
    by_cases hpc : s.pc < s.prog.length
    · by_cases hins : isInstr s.prog[s.pc] = true
      · -- an instruction symbol: returned directly
        have heq : next_instruction s =
            (some s.prog[s.pc], { s with pc := s.pc + 1, col := s.col + 1 }) := by
          rw [next_instruction, dif_pos hpc, if_pos hins]
        rw [heq]
        have hsl : progSlice s.prog s.pc (s.pc + 1) = [s.prog[s.pc]] := by
          rw [progSlice_cons s.prog s.pc (s.pc + 1) hpc (Nat.lt_succ_self _), progSlice_self]
        refine ⟨⟨rfl, rfl, rfl, rfl, rfl, rfl, rfl⟩,
          (by omega : s.pc ≤ s.pc + 1), ?_, ?_, ?_, ?_⟩
        · show (s.lin, s.col + 1) =
            (progSlice s.prog s.pc (s.pc + 1)).foldl scanPos (s.lin, s.col)
          rw [hsl, List.foldl_cons, List.foldl_nil]
          unfold scanPos
          rw [if_neg (isInstr_ne_newline _ hins)]
        · show ∀ c ∈ (progSlice s.prog s.pc (s.pc + 1)).dropLast, isInstr c = false
          rw [hsl]
          intro c hc
          simp at hc
        · intro ch hch
          obtain rfl : s.prog[s.pc] = ch := Option.some.inj hch
          refine ⟨hins, ?_, (by omega : s.pc + 1 ≤ s.prog.length)⟩
          show (progSlice s.prog s.pc (s.pc + 1)).getLast? = some s.prog[s.pc]
          rw [hsl]
          rfl
        · intro h0
          exact Option.noConfusion h0
      · have hinsF : isInstr s.prog[s.pc] = false := by
          revert hins
          cases isInstr s.prog[s.pc] <;> simp
        by_cases hnl : s.prog[s.pc] = '\n'
        · -- a newline: skipped, line advanced, column reset
          have heq : next_instruction s =
              next_instruction { s with pc := s.pc + 1, lin := s.lin + 1, col := 1 } := by
            rw [next_instruction, dif_pos hpc, if_neg (by simp [hinsF]), if_pos hnl]
          have hm : s.prog.length - (s.pc + 1) ≤ n := by omega
          obtain ⟨⟨e1, e2, e3, e4, e5, e6, e7⟩, hle, hfold, hskip, hsome, hnone⟩ :=
            ih { s with pc := s.pc + 1, lin := s.lin + 1, col := 1 } hm
          rw [heq]
          have hle' : s.pc + 1 ≤
              (next_instruction { s with pc := s.pc + 1, lin := s.lin + 1, col := 1 }).2.pc := hle
          have hlt : s.pc <
              (next_instruction { s with pc := s.pc + 1, lin := s.lin + 1, col := 1 }).2.pc := by
            omega
          refine ⟨⟨e1, e2, e3, e4, e5, e6, e7⟩, by omega, ?_, ?_, ?_, ?_⟩
          · rw [progSlice_cons s.prog s.pc _ hpc hlt, hnl, List.foldl_cons]
            have hsp : scanPos (s.lin, s.col) '\n' = (s.lin + 1, 1) := rfl
            rw [hsp]
            exact hfold
          · intro c hc
            rw [progSlice_cons s.prog s.pc _ hpc hlt] at hc
            rcases mem_dropLast_cons hc with rfl | hc'
            · exact hinsF
            · exact hskip c hc'
          · intro ch hch
            obtain ⟨hi1, hlast, hlen⟩ := hsome ch hch
            refine ⟨hi1, ?_, hlen⟩
            rw [progSlice_cons s.prog s.pc _ hpc hlt]
            exact getLast?_cons_of_some hlast
          · intro h0
            obtain ⟨hall, hge, hex⟩ := hnone h0
            have harg : s.pc + 1 ≤ s.prog.length := by omega
            refine ⟨?_, hge, fun _ => hex harg⟩
            intro c hc
            rw [progSlice_cons s.prog s.pc _ hpc hlt] at hc
            rcases List.mem_cons.mp hc with rfl | hc'
            · exact hinsF
            · exact hall c hc'
        · -- any other character: skipped, column advanced
          have heq : next_instruction s =
              next_instruction { s with pc := s.pc + 1, col := s.col + 1 } := by
            rw [next_instruction, dif_pos hpc, if_neg (by simp [hinsF]), if_neg hnl]
          have hm : s.prog.length - (s.pc + 1) ≤ n := by omega
          obtain ⟨⟨e1, e2, e3, e4, e5, e6, e7⟩, hle, hfold, hskip, hsome, hnone⟩ :=
            ih { s with pc := s.pc + 1, col := s.col + 1 } hm
          rw [heq]
          have hle' : s.pc + 1 ≤
              (next_instruction { s with pc := s.pc + 1, col := s.col + 1 }).2.pc := hle
          have hlt : s.pc <
              (next_instruction { s with pc := s.pc + 1, col := s.col + 1 }).2.pc := by
            omega
          refine ⟨⟨e1, e2, e3, e4, e5, e6, e7⟩, by omega, ?_, ?_, ?_, ?_⟩
          · rw [progSlice_cons s.prog s.pc _ hpc hlt, List.foldl_cons]
            have hsp : scanPos (s.lin, s.col) s.prog[s.pc] = (s.lin, s.col + 1) := by
              unfold scanPos
              rw [if_neg hnl]
            rw [hsp]
            exact hfold
          · intro c hc
            rw [progSlice_cons s.prog s.pc _ hpc hlt] at hc
            rcases mem_dropLast_cons hc with rfl | hc'
            · exact hinsF
            · exact hskip c hc'
          · intro ch hch
            obtain ⟨hi1, hlast, hlen⟩ := hsome ch hch
            refine ⟨hi1, ?_, hlen⟩
            rw [progSlice_cons s.prog s.pc _ hpc hlt]
            exact getLast?_cons_of_some hlast
          · intro h0
            obtain ⟨hall, hge, hex⟩ := hnone h0
            have harg : s.pc + 1 ≤ s.prog.length := by omega
            refine ⟨?_, hge, fun _ => hex harg⟩
            intro c hc
            rw [progSlice_cons s.prog s.pc _ hpc hlt] at hc
            rcases List.mem_cons.mp hc with rfl | hc'
            · exact hinsF
            · exact hall c hc'
    · exact scanner_spec_terminal s hpc

/-- CLAIM C3: for every program text and starting position, the Scanner
leaves everything but the position cursor untouched; the offset advances
by one per character examined (the examined characters being exactly the
program slice from the starting offset to the final offset); the line and
column counters evolve over that slice one character at a time, a newline
advancing the line and resetting the column to 1 and every other
character advancing the column by one; every examined character other
than a returned instruction fails the instruction-alphabet test; a
returned character is an instruction symbol and is the last examined
character; and the no-instruction signal is returned exactly when the
offset has reached the program length with only non-instruction
characters seen. -/
theorem scanner_position_tracking (s : Brainfuck) :
    ((next_instruction s).2.prog = s.prog ∧
     (next_instruction s).2.mem = s.mem ∧
     (next_instruction s).2.mem_ptr = s.mem_ptr ∧
     (next_instruction s).2.stack = s.stack ∧
     (next_instruction s).2.sp = s.sp ∧
     (next_instruction s).2.input = s.input ∧
     (next_instruction s).2.output = s.output) ∧
    s.pc ≤ (next_instruction s).2.pc ∧
    ((next_instruction s).2.lin, (next_instruction s).2.col) =
      (progSlice s.prog s.pc (next_instruction s).2.pc).foldl scanPos (s.lin, s.col) ∧
    (∀ c ∈ (progSlice s.prog s.pc (next_instruction s).2.pc).dropLast, isInstr c = false) ∧
    (∀ ch, (next_instruction s).1 = some ch →
      isInstr ch = true ∧
      (progSlice s.prog s.pc (next_instruction s).2.pc).getLast? = some ch ∧
      (next_instruction s).2.pc ≤ s.prog.length) ∧
    ((next_instruction s).1 = none →
      (∀ c ∈ progSlice s.prog s.pc (next_instruction s).2.pc, isInstr c = false) ∧
      s.prog.length ≤ (next_instruction s).2.pc ∧
      (s.pc ≤ s.prog.length → (next_instruction s).2.pc = s.prog.length)) :=
  scanner_spec_aux (s.prog.length - s.pc) s le_rfl

/-- Fresh engine on a program with a comment character, a newline and an
instruction. -/
def demoScan : Brainfuck := Brainfuck.new "x\n+"

/-- CLAIM C3 witness: scanning skips the comment character (column 2),
crosses the newline (line 2, column 1), returns the instruction with the
offset at 3 and the cursor at line 2, column 2, matching the fold of the
position bookkeeping over the examined slice. -/
theorem scanner_position_tracking_witness :
    (next_instruction demoScan).1 = some '+' ∧
    isInstr '+' = true ∧
    (next_instruction demoScan).2.pc = 3 ∧
    ((next_instruction demoScan).2.lin, (next_instruction demoScan).2.col) =
      (progSlice demoScan.prog 0 3).foldl scanPos (1, 1) := by
  have h1 : (next_instruction demoScan).1 = some '+' := by
    simp [next_instruction, demoScan, Brainfuck.new, isInstr]
  have hpc : (next_instruction demoScan).2.pc = 3 := by
    simp [next_instruction, demoScan, Brainfuck.new, isInstr]
  have h := scanner_position_tracking demoScan
  refine ⟨h1, (h.2.2.2.2.1 '+' h1).1, hpc, ?_⟩
  have hfold := h.2.2.1
  rw [hpc] at hfold
  exact hfold

/-- The returned character of a Scanner step is always one of the eight
instruction symbols. -/
lemma next_instruction_some_isInstr (s : Brainfuck) (ch : Char)
    (h : (next_instruction s).1 = some ch) : isInstr ch = true :=
  ((scanner_spec_aux (s.prog.length - s.pc) s le_rfl).2.2.2.2.1 ch h).1

lemma status_ok_ne_unexpected : Status.ok ≠ Status.err "Unexpected instruction" := by
  decide

lemma status_panicked_ne_unexpected : Status.panicked ≠ Status.err "Unexpected instruction" := by
  decide

lemma status_err_ne_unexpected (m : String) (hm : m ≠ "Unexpected instruction") :
    Status.err m ≠ Status.err "Unexpected instruction" := by
  intro hq
  injection hq with h2
  exact hm h2

/-- Every arm of the dispatcher reached by an instruction symbol reports
an error message other than the defensive unexpected-instruction one. -/
lemma execIns_no_unexpected (s : Brainfuck) (ch : Char) (h : isInstr ch = true) :
    (execIns s ch).2 ≠ .err "Unexpected instruction" := by
  unfold isInstr at h
  simp only [Bool.or_eq_true, beq_iff_eq] at h
  rcases h with ((((((rfl | rfl) | rfl) | rfl) | rfl) | rfl) | rfl) | rfl
  · rw [execIns_lt_eq]
    split_ifs
    · exact status_err_ne_unexpected _ (by decide)
    · exact status_ok_ne_unexpected
  · rw [execIns_gt_eq]
    split_ifs
    · exact status_err_ne_unexpected _ (by decide)
    · exact status_ok_ne_unexpected
  · rw [execIns_plus_eq]
    split_ifs
    · exact status_err_ne_unexpected _ (by decide)
    · exact status_ok_ne_unexpected
  · rw [execIns_minus_eq]
    split_ifs
    · exact status_err_ne_unexpected _ (by decide)
    · exact status_ok_ne_unexpected
  · rw [execIns_dot_eq]
    split_ifs
    · exact status_ok_ne_unexpected
    · exact status_err_ne_unexpected _ (by decide)
  · rw [execIns_comma_eq]
    rcases s.input.dropWhile (fun b => b == 10) with _ | ⟨b, rest⟩
    · exact status_panicked_ne_unexpected
    · exact status_ok_ne_unexpected
  · rw [execIns_open_eq]
    rcases check_ending_bracket s with _ | addr
    · exact status_err_ne_unexpected _ (by decide)
    · split_ifs with hc
      · exact status_ok_ne_unexpected
      · unfold stack_push
        split_ifs
        · exact status_err_ne_unexpected _ (by decide)
        · exact status_ok_ne_unexpected
  · rw [execIns_close_eq]
    rcases stack_peek s with _ | exc
    · exact status_panicked_ne_unexpected
    · rcases exc with m | t
      · exact status_err_ne_unexpected _ (by decide)
      · rcases t with ⟨p, l, c⟩
        split_ifs with hc
        · exact status_ok_ne_unexpected
        · rcases stack_pop s with _ | exc2
          · exact status_panicked_ne_unexpected
          · rcases exc2 with m2 | ⟨t2, s1⟩
            · exact status_panicked_ne_unexpected
            · exact status_ok_ne_unexpected

/-- CLAIM C8: the defensive unexpected-instruction branch is unreachable:
every character the Scanner returns passes the instruction-alphabet test,
and no run, from any state and with any fuel, ever halts with the
unexpected-instruction error. -/
theorem no_unexpected_instruction :
    (∀ (s : Brainfuck) (ch : Char),
      (next_instruction s).1 = some ch → isInstr ch = true) ∧
    (∀ (fuel : Nat) (s : Brainfuck),
      errMsg (run fuel s) ≠ some "Unexpected instruction") := by
  refine ⟨next_instruction_some_isInstr, ?_⟩
  intro fuel
  induction fuel with
  | zero =>
    intro s
    rw [run]
    simp [errMsg]
  | succ n ih =>
    intro s
    rw [run]
    rcases hni : next_instruction s with ⟨r, s1⟩
    cases r with
    | none =>
      simp [errMsg]
    | some ch =>
      show errMsg (match execIns s1 ch with
        | (s2, Status.ok) => run n s2
        | (s2, Status.err msg) => RunResult.error msg s2
        | (s2, Status.panicked) => RunResult.panicked s2) ≠ some "Unexpected instruction"
      rcases he : execIns s1 ch with ⟨s2, st⟩
      cases st with
      | ok => exact ih s2
      | err m =>
        have hins := next_instruction_some_isInstr s ch (by rw [hni])
        have hne := execIns_no_unexpected s1 ch hins
        rw [he] at hne
        intro hq
        have hq' : some m = some "Unexpected instruction" := hq
        have hne' : Status.err m ≠ Status.err "Unexpected instruction" := hne
        exact hne' (by rw [Option.some.inj hq'])
      | panicked =>
        exact fun hq => Option.noConfusion hq

/-- CLAIM C8 witness: the scanner on a program starting with two comment
characters returns an instruction symbol, and the corresponding run does
not end in the unexpected-instruction error. -/
theorem no_unexpected_instruction_witness :
    isInstr '+' = true ∧
    errMsg (run 3 (Brainfuck.new "ab+")) ≠ some "Unexpected instruction" := by
  constructor
  · exact no_unexpected_instruction.1 (Brainfuck.new "ab+") '+'
      (by simp [next_instruction, Brainfuck.new, isInstr])
  · exact no_unexpected_instruction.2 3 (Brainfuck.new "ab+")
